import Mathlib

/-!
Shallow embedding of `check_stack.py` (the provisioning orchestrator) and of
its bounded-polling primitive `wait_until`.

The orchestrator is modelled as a state-passing function over an environment
oracle: `Env.hresp i` is the (status, parsed-body) answer of the control API
to the i-th HTTP request of the run, and `Env.rresp i` is the
(returncode, output) of the i-th subprocess command.  The state `St` records
how many HTTP / subprocess calls happened so far and the ordered trace of
issued effects (method + url for HTTP, argument vector for subprocess).
Response bodies are modelled as `Option JVal`: `none` stands for a body that
`json.loads` rejects, `some j` for the parsed document.

Wall-clock time in `wait_until` is modelled by counting sleep intervals:
after `n` loop iterations `time.time() - t0` is `n * sleep_s`.  The Python
loop is unbounded; here it carries a fuel argument, and the canonical fuel
`waitFuel` is large enough that (for a positive sleep interval) the loop
always exits through its own condition, never through fuel exhaustion.
-/

namespace CheckStack

inductive Method where
  | GET
  | POST
  | PUT
  | DELETE
deriving DecidableEq, Repr

inductive Effect where
  | http (m : Method) (url : String)
  | runCmd (cmd : List String)
deriving DecidableEq, Repr

/-- JSON values as produced by `json.loads`; `null` also stands for Python `None`. -/
inductive JVal where
  | null
  | jbool (b : Bool)
  | jnum (n : Int)
  | jstr (s : String)
  | jarr (xs : List JVal)
  | jobj (fields : List (String × JVal))

structure St where
  nh : Nat
  nr : Nat
  tr : List Effect
deriving Repr

structure Env where
  hresp : Nat → Nat × Option JVal
  rresp : Nat → Int × String

/-- The environment-supplied configuration of `main` (with its defaults below). -/
structure Config where
  esUrl : String
  idx : String
  pipelineId : String
  modelId : String
  lsService : String
  esContainer : String

def cfg0 : Config :=
  { esUrl := "http://localhost:9200"
    idx := "oracle_elser_index"
    pipelineId := "elser_oracle_pipeline"
    modelId := ".elser_model_2"
    lsService := "ls01"
    esContainer := "es01" }

def rootUrl (c : Config) : String := c.esUrl ++ "/"

def licenseUrl (c : Config) : String := c.esUrl ++ "/_license?pretty"

def listModelsUrl (c : Config) : String := c.esUrl ++ "/_ml/trained_models?size=200&pretty"

def downloadUrl (c : Config) : String :=
  c.esUrl ++ "/_ml/trained_models/" ++ c.modelId ++ "/_download?pretty"

def modelUrl (c : Config) : String :=
  c.esUrl ++ "/_ml/trained_models/" ++ c.modelId ++ "?pretty"

def statsUrl (c : Config) : String :=
  c.esUrl ++ "/_ml/trained_models/" ++ c.modelId ++ "/_stats?pretty"

def startUrl (c : Config) : String :=
  c.esUrl ++ "/_ml/trained_models/" ++ c.modelId ++ "/deployment/_start?pretty"

def pipelineUrl (c : Config) : String :=
  c.esUrl ++ "/_ingest/pipeline/" ++ c.pipelineId ++ "?pretty"

def indexUrl (c : Config) : String := c.esUrl ++ "/" ++ c.idx ++ "?pretty"

def countUrl (c : Config) : String := c.esUrl ++ "/" ++ c.idx ++ "/_count?pretty"

def dockerPsCmd : List String :=
  ["docker", "ps", "--format", "\x7b\x7b.Names\x7d\x7d\t\x7b\x7b.Status\x7d\x7d\t\x7b\x7b.Ports\x7d\x7d"]

def composeRestartCmd (c : Config) : List String :=
  ["docker", "compose", "restart", c.lsService]

def dockerRestartCmd (c : Config) : List String :=
  ["docker", "restart", c.lsService]

def dockerLogsCmd (c : Config) : List String :=
  ["docker", "logs", "--tail", "160", c.lsService]

def st0 : St := ⟨0, 0, []⟩

/-- One HTTP request: the answer is the oracle's entry for the current HTTP
call count, and the (method, url) is appended to the trace.  Mirrors `http`
in the source (auth/payload/timeout do not influence control flow and are
not modelled). -/
def httpC (env : Env) (st : St) (m : Method) (url : String) : (Nat × Option JVal) × St :=
  (env.hresp st.nh, ⟨st.nh + 1, st.nr, st.tr ++ [Effect.http m url]⟩)

/-- One subprocess invocation, mirrors `run` in the source. -/
def runC (env : Env) (st : St) (cmd : List String) : (Int × String) × St :=
  (env.rresp st.nr, ⟨st.nh, st.nr + 1, st.tr ++ [Effect.runCmd cmd]⟩)

/-- Python `dict.get key` on a parsed JSON object, last occurrence of a
duplicated key winning as in `json.loads`. -/
def jget : List (String × JVal) → String → Option JVal
  | [], _ => none
  | (k, v) :: rest, key =>
    match jget rest key with
    | some r => some r
    | none => if k = key then some v else none

/-- Python `x == t` for a string literal `t` and a JSON value `x`: true
exactly when `x` is that string. -/
def isStrEq (t : String) : JVal → Bool
  | JVal.jstr s => s == t
  | _ => false

/-- Python `t in models` for a string `t` and a list of JSON values. -/
def containsStr (t : String) (l : List JVal) : Bool := l.any (isStrEq t)

/-- The list comprehension `[m.get("model_id") for m in tmc]`: `none` when a
member is not a dict (the comprehension raises and `models` stays `[]`). -/
def modelIdList : List JVal → Option (List JVal)
  | [] => some []
  | JVal.jobj fs :: rest =>
    match modelIdList rest with
    | some l => some (((jget fs "model_id").getD JVal.null) :: l)
    | none => none
  | _ :: _ => none

/-- The `models` list computed at step 3 of `main` from the model-listing
body: any exception inside the `try` block leaves `models = []`. -/
def extractModels (bd : Option JVal) : List JVal :=
  match bd with
  | some (JVal.jobj fs) =>
    match jget fs "trained_model_configs" with
    | some (JVal.jarr ms) => (modelIdList ms).getD []
    | some _ => []
    | none => []
  | _ => []

/-- The parse inside `_deploy_status`:
`j.get("trained_model_stats", [{}])[0].get("deployment_stats", {}).get("state")`.
`none` models the `except` branch ("could not parse stats"); `some s` is the
Python value of `state` (with `JVal.null` for `None`). -/
def deployStateOf (j : JVal) : Option JVal :=
  match j with
  | JVal.jobj fs =>
    match (jget fs "trained_model_stats").getD (JVal.jarr [JVal.jobj []]) with
    | JVal.jarr (x :: _) =>
      match x with
      | JVal.jobj xfs =>
        match (jget xfs "deployment_stats").getD (JVal.jobj []) with
        | JVal.jobj dfs => some ((jget dfs "state").getD JVal.null)
        | _ => none
      | _ => none
    | _ => none
  | _ => none

/-- The bounded-polling primitive `wait_until` of the source, generic in the
state `σ` threaded through the predicate (for the orchestrator, `σ = St`; for
the pure theorems, `σ = Nat` counts invocations).  The second `Nat` argument
is the number of completed iterations, so the loop guard
`time.time() - t0 < timeout_s` reads `n * sleep_s < timeout_s`.  The first
`Nat` argument is fuel; `waitFuel` below always suffices for a positive
sleep interval. -/
def wait_until {σ : Type} (fn : σ → (Bool × String) × σ) (timeout_s sleep_s : Int) :
    Nat → Nat → σ → Bool × σ
  | 0, _, st => (false, st)
  | fuel + 1, n, st =>
    if (n : Int) * sleep_s < timeout_s then
      let r := fn st
      if r.1.1 then (true, r.2)
      else wait_until fn timeout_s sleep_s fuel (n + 1) r.2
    else (false, st)

def waitFuel (timeout_s sleep_s : Int) : Nat := timeout_s.toNat / sleep_s.toNat + 1

def wait_until_run {σ : Type} (fn : σ → (Bool × String) × σ) (timeout_s sleep_s : Int)
    (st : σ) : Bool × σ :=
  wait_until fn timeout_s sleep_s (waitFuel timeout_s sleep_s) 0 st

/-- Lift a pure readiness predicate (indexed by invocation number) into the
polled shape, with the state counting how often it has been invoked. -/
def countingFn (fn : Nat → Bool × String) : Nat → (Bool × String) × Nat :=
  fun n => (fn n, n + 1)

/-- `_download_ready` of the source: a 200 answer whose body parses as JSON
counts as ready. -/
def download_ready (cfg : Config) (env : Env) (st : St) : (Bool × String) × St :=
  let c := httpC env st Method.GET (modelUrl cfg)
  (if c.1.1 ≠ 200 then (false, "http error")
   else
     match c.1.2 with
     | some _ => (true, "model exists")
     | none => (false, "not json yet"), c.2)

/-- `_deploy_status` of the source: ready exactly when the parsed stats
report deployment state `"started"`. -/
def deploy_status (cfg : Config) (env : Env) (st : St) : (Bool × String) × St :=
  let c := httpC env st Method.GET (statsUrl cfg)
  (if c.1.1 ≠ 200 then (false, "http error")
   else
     match c.1.2 with
     | none => (false, "could not parse stats")
     | some j =>
       match deployStateOf j with
       | none => (false, "could not parse stats")
       | some s => if isStrEq "started" s then (true, "started") else (false, "not started"),
   c.2)

/-- Step 1: `docker ps`; a nonzero returncode aborts the run with exit code 2. -/
def stepDocker (env : Env) (st : St) : Sum (Int × St) St :=
  let c := runC env st dockerPsCmd
  if c.1.1 ≠ 0 then Sum.inl (2, c.2) else Sum.inr c.2

/-- Step 2: reachability (exit code 3 unless HTTP 200) followed by the
license query, whose status is not checked. -/
def stepReach (cfg : Config) (env : Env) (st : St) : Sum (Int × St) St :=
  let c := httpC env st Method.GET (rootUrl cfg)
  if c.1.1 ≠ 200 then Sum.inl (3, c.2)
  else Sum.inr (httpC env c.2 Method.GET (licenseUrl cfg)).2

/-- Step 3: list trained models (exit code 4 on a non-200 status) and test
membership of the target model id. -/
def stepList (cfg : Config) (env : Env) (st : St) : Sum (Int × St) (Bool × St) :=
  let c := httpC env st Method.GET (listModelsUrl cfg)
  if c.1.1 ≠ 200 then Sum.inl (4, c.2)
  else Sum.inr (containsStr cfg.modelId (extractModels c.1.2), c.2)

/-- Step 3A: trigger the model download (exit code 5 unless 200/201), then
poll `_download_ready` for 600 s at 10 s intervals (exit code 6 on timeout). -/
def stepDownload (cfg : Config) (env : Env) (st : St) : Sum (Int × St) St :=
  let c := httpC env st Method.POST (downloadUrl cfg)
  if c.1.1 = 200 ∨ c.1.1 = 201 then
    let w := wait_until_run (download_ready cfg env) 600 10 c.2
    if w.1 then Sum.inr w.2 else Sum.inl (6, w.2)
  else Sum.inl (5, c.2)

/-- The deployment-readiness polling of step 3B: poll `_deploy_status` for
600 s at 10 s intervals, exit code 8 on timeout. -/
def deployPoll (cfg : Config) (env : Env) (st : St) : Sum (Int × St) St :=
  let w := wait_until_run (deploy_status cfg env) 600 10 st
  if w.1 then Sum.inr w.2 else Sum.inl (8, w.2)

/-- Step 3B (fix mode): trigger the deployment start; 200, 201 and 409 all
proceed to the readiness poll, anything else is exit code 7. -/
def stepDeployFix (cfg : Config) (env : Env) (st : St) : Sum (Int × St) St :=
  let c := httpC env st Method.POST (startUrl cfg)
  if c.1.1 = 200 ∨ c.1.1 = 201 ∨ c.1.1 = 409 then deployPoll cfg env c.2
  else Sum.inl (7, c.2)

/-- Step 3B (read-only mode): `_ = _deploy_status()` — the stats are queried
once and the result is discarded. -/
def stepDeployRO (cfg : Config) (env : Env) (st : St) : St :=
  (deploy_status cfg env st).2

/-- Python `ok(msg)` (source line 24): the single line it prints. -/
def okLine (msg : String) : String := "[OK] " ++ msg

/-- Step 3B (read-only mode) together with the lines it prints (source lines
183–185): `ok("Skipping deployment changes (read-only mode).")` prints the
fixed banner, and `_ = _deploy_status()` binds the probe's result to `_`;
`_deploy_status` itself (source lines 151–165) contains no print statement,
so the banner is the branch's entire output, whatever the queried status. -/
def stepDeployRO_out (cfg : Config) (env : Env) (st : St) : List String × St :=
  ([okLine "Skipping deployment changes (read-only mode)."], (deploy_status cfg env st).2)

/-- Step 4: in fix mode `PUT` the pipeline (exit code 9 unless 200/201); in
read-only mode `GET` it, downgrading absence to a warning. -/
def stepPipeline (cfg : Config) (env : Env) (fix : Bool) (st : St) : Sum (Int × St) St :=
  if fix then
    let c := httpC env st Method.PUT (pipelineUrl cfg)
    if c.1.1 = 200 ∨ c.1.1 = 201 then Sum.inr c.2 else Sum.inl (9, c.2)
  else Sum.inr (httpC env st Method.GET (pipelineUrl cfg)).2

/-- Step 5: in fix mode `DELETE` the index unconditionally (status unused),
then `PUT` it (exit code 10 unless 200/201); read-only mode does nothing. -/
def stepIndex (cfg : Config) (env : Env) (fix : Bool) (st : St) : Sum (Int × St) St :=
  if fix then
    let d := httpC env st Method.DELETE (indexUrl cfg)
    let c := httpC env d.2 Method.PUT (indexUrl cfg)
    if c.1.1 = 200 ∨ c.1.1 = 201 then Sum.inr c.2 else Sum.inl (10, c.2)
  else Sum.inr st

/-- Step 6 restart block: in fix mode `docker compose restart`, falling back
to `docker restart` when the first returncode is nonzero; never fatal. -/
def stepRestart (cfg : Config) (env : Env) (fix : Bool) (st : St) : St :=
  if fix then
    let c := runC env st (composeRestartCmd cfg)
    if c.1.1 ≠ 0 then (runC env c.2 (dockerRestartCmd cfg)).2 else c.2
  else st

/-- Step 6 tail: the record-count query (status only printed). -/
def stepCount (cfg : Config) (env : Env) (st : St) : St :=
  (httpC env st Method.GET (countUrl cfg)).2

/-- Step 7: tail the dependent service's logs (output only printed). -/
def stepLogs (cfg : Config) (env : Env) (st : St) : St :=
  (runC env st (dockerLogsCmd cfg)).2

/-- Steps 6–7 as run after the index step: restart block, count query, log
tail; always reached, always ends with exit code 0 in `main`. -/
def finishRun (cfg : Config) (env : Env) (fix : Bool) (st : St) : St :=
  stepLogs cfg env (stepCount cfg env (stepRestart cfg env fix st))

/-- `main` from the index step onward. -/
def runIndexOn (cfg : Config) (env : Env) (fix : Bool) (st : St) : Int × St :=
  match stepIndex cfg env fix st with
  | Sum.inl r => r
  | Sum.inr s => (0, finishRun cfg env fix s)

/-- `main` from the pipeline step onward. -/
def runPipelineOn (cfg : Config) (env : Env) (fix : Bool) (st : St) : Int × St :=
  match stepPipeline cfg env fix st with
  | Sum.inl r => r
  | Sum.inr s => runIndexOn cfg env fix s

/-- `main` from the deployment step onward (step 3B chooses its branch on the
mutation flag). -/
def runDeployOn (cfg : Config) (env : Env) (fix : Bool) (st : St) : Int × St :=
  match (if fix then stepDeployFix cfg env st else Sum.inr (stepDeployRO cfg env st)) with
  | Sum.inl r => r
  | Sum.inr s => runPipelineOn cfg env fix s

/-- `main` from the model-existence decision onward: the download block runs
only when `fix` is set and the model id was absent from the listing. -/
def mainTail (cfg : Config) (env : Env) (fix : Bool) (have_elser : Bool) (st : St) :
    Int × St :=
  match (if fix && !have_elser then stepDownload cfg env st else Sum.inr st) with
  | Sum.inl r => r
  | Sum.inr s => runDeployOn cfg env fix s

/-- `main` from the model-listing step onward. -/
def runListOn (cfg : Config) (env : Env) (fix : Bool) (st : St) : Int × St :=
  match stepList cfg env st with
  | Sum.inl r => r
  | Sum.inr bs => mainTail cfg env fix bs.1 bs.2

/-- `main` from the reachability step onward. -/
def runReachOn (cfg : Config) (env : Env) (fix : Bool) (st : St) : Int × St :=
  match stepReach cfg env st with
  | Sum.inl r => r
  | Sum.inr s => runListOn cfg env fix s

/-- `main` of `check_stack.py`: returns the process exit code and the final
state (call counts and effect trace). -/
def main (cfg : Config) (env : Env) (fix : Bool) : Int × St :=
  match stepDocker env st0 with
  | Sum.inl r => r
  | Sum.inr s => runReachOn cfg env fix s

/-! ### Trace-extension infrastructure

`TrOk P s1 s2` says that `s2`'s effect trace is `s1`'s trace followed by new
effects that all satisfy `P`.  Every step of the orchestrator only appends to
the trace, so claims of the shape "no such call is ever issued" are proved by
instantiating `P` with the complement of the offending effect. -/

def TrOk (P : Effect → Prop) (s1 s2 : St) : Prop :=
  ∃ l, s2.tr = s1.tr ++ l ∧ ∀ e ∈ l, P e

theorem TrOk.refl (P : Effect → Prop) (s : St) : TrOk P s s :=
  ⟨[], by simp, by simp⟩

theorem TrOk.trans {P : Effect → Prop} {s1 s2 s3 : St}
    (h1 : TrOk P s1 s2) (h2 : TrOk P s2 s3) : TrOk P s1 s3 := by
  obtain ⟨l1, e1, p1⟩ := h1
  obtain ⟨l2, e2, p2⟩ := h2
  refine ⟨l1 ++ l2, by simp [e2, e1], ?_⟩
  intro e he
  rcases List.mem_append.1 he with h | h
  · exact p1 e h
  · exact p2 e h

theorem TrOk_mem {P : Effect → Prop} {s1 s2 : St} (h : TrOk P s1 s2) {e : Effect}
    (he : e ∈ s1.tr) : e ∈ s2.tr := by
  obtain ⟨l, hl, _⟩ := h
  rw [hl]
  exact List.mem_append_left _ he

theorem TrOk_httpC {P : Effect → Prop} {m : Method} {u : String}
    (h : P (Effect.http m u)) (env : Env) (st : St) :
    TrOk P st (httpC env st m u).2 :=
  ⟨[Effect.http m u], rfl, by simpa⟩

theorem TrOk_runC {P : Effect → Prop} {c : List String}
    (h : P (Effect.runCmd c)) (env : Env) (st : St) :
    TrOk P st (runC env st c).2 :=
  ⟨[Effect.runCmd c], rfl, by simpa⟩

theorem TrOk_wait {P : Effect → Prop} (fn : St → (Bool × String) × St) (tmo slp : Int)
    (hfn : ∀ x : St, TrOk P x (fn x).2) :
    ∀ fuel n st, TrOk P st (wait_until fn tmo slp fuel n st).2 := by
  intro fuel
  induction fuel with
  | zero =>
    intro n st
    simpa [wait_until] using TrOk.refl P st
  | succ f ih =>
    intro n st
    simp only [wait_until]
    split
    · by_cases hr : (fn st).1.1
      · simpa [hr] using hfn st
      · simpa [hr] using TrOk.trans (hfn st) (ih (n + 1) (fn st).2)
    · exact TrOk.refl P st

def outSt : Sum (Int × St) St → St
  | Sum.inl r => r.2
  | Sum.inr s => s

def outStB : Sum (Int × St) (Bool × St) → St
  | Sum.inl r => r.2
  | Sum.inr p => p.2

theorem TrOk_download_ready {P : Effect → Prop} (cfg : Config) (env : Env)
    (h : P (Effect.http Method.GET (modelUrl cfg))) :
    ∀ st, TrOk P st (download_ready cfg env st).2 :=
  fun st => TrOk_httpC h env st

theorem TrOk_deploy_status {P : Effect → Prop} (cfg : Config) (env : Env)
    (h : P (Effect.http Method.GET (statsUrl cfg))) :
    ∀ st, TrOk P st (deploy_status cfg env st).2 :=
  fun st => TrOk_httpC h env st

theorem TrOk_stepDocker {P : Effect → Prop} (h : P (Effect.runCmd dockerPsCmd))
    (env : Env) (st : St) : TrOk P st (outSt (stepDocker env st)) := by
  unfold stepDocker
  by_cases hc : (runC env st dockerPsCmd).1.1 ≠ 0 <;>
    simpa [hc, outSt] using TrOk_runC h env st

theorem TrOk_stepReach {P : Effect → Prop} (cfg : Config) (env : Env) (st : St)
    (h1 : P (Effect.http Method.GET (rootUrl cfg)))
    (h2 : P (Effect.http Method.GET (licenseUrl cfg))) :
    TrOk P st (outSt (stepReach cfg env st)) := by
  unfold stepReach
  by_cases hc : (httpC env st Method.GET (rootUrl cfg)).1.1 ≠ 200
  · simpa [hc, outSt] using TrOk_httpC h1 env st
  · simpa [hc, outSt] using
      TrOk.trans (TrOk_httpC h1 env st)
        (TrOk_httpC h2 env (httpC env st Method.GET (rootUrl cfg)).2)

theorem TrOk_stepList {P : Effect → Prop} (cfg : Config) (env : Env) (st : St)
    (h : P (Effect.http Method.GET (listModelsUrl cfg))) :
    TrOk P st (outStB (stepList cfg env st)) := by
  unfold stepList
  by_cases hc : (httpC env st Method.GET (listModelsUrl cfg)).1.1 ≠ 200 <;>
    simpa [hc, outStB] using TrOk_httpC h env st

theorem TrOk_stepDownload {P : Effect → Prop} (cfg : Config) (env : Env) (st : St)
    (h1 : P (Effect.http Method.POST (downloadUrl cfg)))
    (h2 : P (Effect.http Method.GET (modelUrl cfg))) :
    TrOk P st (outSt (stepDownload cfg env st)) := by
  unfold stepDownload
  by_cases hc : (httpC env st Method.POST (downloadUrl cfg)).1.1 = 200 ∨
      (httpC env st Method.POST (downloadUrl cfg)).1.1 = 201
  · have hw : TrOk P (httpC env st Method.POST (downloadUrl cfg)).2
        (wait_until_run (download_ready cfg env) 600 10
          (httpC env st Method.POST (downloadUrl cfg)).2).2 :=
      TrOk_wait (download_ready cfg env) 600 10 (TrOk_download_ready cfg env h2)
        (waitFuel 600 10) 0 _
    by_cases hr : (wait_until_run (download_ready cfg env) 600 10
        (httpC env st Method.POST (downloadUrl cfg)).2).1 <;>
      simpa [hc, hr, outSt] using TrOk.trans (TrOk_httpC h1 env st) hw
  · simpa [hc, outSt] using TrOk_httpC h1 env st

theorem TrOk_deployPoll {P : Effect → Prop} (cfg : Config) (env : Env) (st : St)
    (h : P (Effect.http Method.GET (statsUrl cfg))) :
    TrOk P st (outSt (deployPoll cfg env st)) := by
  unfold deployPoll
  have hw : TrOk P st (wait_until_run (deploy_status cfg env) 600 10 st).2 :=
    TrOk_wait (deploy_status cfg env) 600 10 (TrOk_deploy_status cfg env h)
      (waitFuel 600 10) 0 st
  by_cases hr : (wait_until_run (deploy_status cfg env) 600 10 st).1 <;>
    simpa [hr, outSt] using hw

theorem TrOk_stepDeployFix {P : Effect → Prop} (cfg : Config) (env : Env) (st : St)
    (h1 : P (Effect.http Method.POST (startUrl cfg)))
    (h2 : P (Effect.http Method.GET (statsUrl cfg))) :
    TrOk P st (outSt (stepDeployFix cfg env st)) := by
  unfold stepDeployFix
  by_cases hc : (httpC env st Method.POST (startUrl cfg)).1.1 = 200 ∨
      (httpC env st Method.POST (startUrl cfg)).1.1 = 201 ∨
      (httpC env st Method.POST (startUrl cfg)).1.1 = 409
  · simpa [hc] using
      TrOk.trans (TrOk_httpC h1 env st)
        (TrOk_deployPoll cfg env (httpC env st Method.POST (startUrl cfg)).2 h2)
  · simpa [hc, outSt] using TrOk_httpC h1 env st

theorem TrOk_stepPipeline {P : Effect → Prop} (cfg : Config) (env : Env) (fix : Bool)
    (st : St)
    (h1 : fix = true → P (Effect.http Method.PUT (pipelineUrl cfg)))
    (h2 : fix = false → P (Effect.http Method.GET (pipelineUrl cfg))) :
    TrOk P st (outSt (stepPipeline cfg env fix st)) := by
  unfold stepPipeline
  cases fix with
  | false => simpa [outSt] using TrOk_httpC (h2 rfl) env st
  | true =>
    by_cases hc : (httpC env st Method.PUT (pipelineUrl cfg)).1.1 = 200 ∨
        (httpC env st Method.PUT (pipelineUrl cfg)).1.1 = 201 <;>
      simpa [hc, outSt] using TrOk_httpC (h1 rfl) env st

theorem TrOk_stepIndex {P : Effect → Prop} (cfg : Config) (env : Env) (fix : Bool)
    (st : St)
    (h1 : fix = true → P (Effect.http Method.DELETE (indexUrl cfg)))
    (h2 : fix = true → P (Effect.http Method.PUT (indexUrl cfg))) :
    TrOk P st (outSt (stepIndex cfg env fix st)) := by
  unfold stepIndex
  cases fix with
  | false => exact TrOk.refl P st
  | true =>
    have hd := TrOk_httpC (h1 rfl) env st
    have hp := TrOk_httpC (h2 rfl) env (httpC env st Method.DELETE (indexUrl cfg)).2
    by_cases hc : (httpC env (httpC env st Method.DELETE (indexUrl cfg)).2 Method.PUT
        (indexUrl cfg)).1.1 = 200 ∨
        (httpC env (httpC env st Method.DELETE (indexUrl cfg)).2 Method.PUT
          (indexUrl cfg)).1.1 = 201 <;>
      simpa [hc, outSt] using TrOk.trans hd hp

theorem TrOk_stepRestart {P : Effect → Prop} (cfg : Config) (env : Env) (fix : Bool)
    (st : St)
    (h1 : fix = true → P (Effect.runCmd (composeRestartCmd cfg)))
    (h2 : fix = true → P (Effect.runCmd (dockerRestartCmd cfg))) :
    TrOk P st (stepRestart cfg env fix st) := by
  unfold stepRestart
  cases fix with
  | false => exact TrOk.refl P st
  | true =>
    by_cases hc : (runC env st (composeRestartCmd cfg)).1.1 ≠ 0
    · simpa [hc] using
        TrOk.trans (TrOk_runC (h1 rfl) env st)
          (TrOk_runC (h2 rfl) env (runC env st (composeRestartCmd cfg)).2)
    · simpa [hc] using TrOk_runC (h1 rfl) env st

theorem TrOk_finishRun {P : Effect → Prop} (cfg : Config) (env : Env) (fix : Bool)
    (st : St)
    (h1 : fix = true → P (Effect.runCmd (composeRestartCmd cfg)))
    (h2 : fix = true → P (Effect.runCmd (dockerRestartCmd cfg)))
    (h3 : P (Effect.http Method.GET (countUrl cfg)))
    (h4 : P (Effect.runCmd (dockerLogsCmd cfg))) :
    TrOk P st (finishRun cfg env fix st) := by
  unfold finishRun stepLogs stepCount
  exact TrOk.trans (TrOk_stepRestart cfg env fix st h1 h2)
    (TrOk.trans (TrOk_httpC h3 env _) (TrOk_runC h4 env _))

theorem stepDocker_inr {env : Env} {st st' : St} (h : stepDocker env st = Sum.inr st') :
    st' = ⟨st.nh, st.nr + 1, st.tr ++ [Effect.runCmd dockerPsCmd]⟩ := by
  unfold stepDocker runC at h
  by_cases hc : (env.rresp st.nr).1 ≠ 0 <;> simp [hc] at h
  exact h.symm

theorem stepReach_inr {cfg : Config} {env : Env} {st st' : St}
    (h : stepReach cfg env st = Sum.inr st') :
    st' = ⟨st.nh + 2, st.nr, st.tr ++ [Effect.http Method.GET (rootUrl cfg),
      Effect.http Method.GET (licenseUrl cfg)]⟩ := by
  unfold stepReach httpC at h
  by_cases hc : (env.hresp st.nh).1 ≠ 200 <;> simp [hc] at h
  simp [← h]

theorem stepList_inr {cfg : Config} {env : Env} {st st' : St} {b : Bool}
    (h : stepList cfg env st = Sum.inr (b, st')) :
    b = containsStr cfg.modelId (extractModels (env.hresp st.nh).2) ∧
    st' = ⟨st.nh + 1, st.nr, st.tr ++ [Effect.http Method.GET (listModelsUrl cfg)]⟩ := by
  unfold stepList httpC at h
  by_cases hc : (env.hresp st.nh).1 ≠ 200 <;> simp [hc] at h
  exact ⟨h.1.symm, h.2.symm⟩

theorem runIndexOn_effects {P : Effect → Prop} (cfg : Config) (env : Env) (fix : Bool)
    (st : St)
    (hidxDel : fix = true → P (Effect.http Method.DELETE (indexUrl cfg)))
    (hidxPut : fix = true → P (Effect.http Method.PUT (indexUrl cfg)))
    (hrest1 : fix = true → P (Effect.runCmd (composeRestartCmd cfg)))
    (hrest2 : fix = true → P (Effect.runCmd (dockerRestartCmd cfg)))
    (hcount : P (Effect.http Method.GET (countUrl cfg)))
    (hlogs : P (Effect.runCmd (dockerLogsCmd cfg))) :
    TrOk P st (runIndexOn cfg env fix st).2 := by
  unfold runIndexOn
  have hIdx := TrOk_stepIndex cfg env fix st hidxDel hidxPut
  rcases h : stepIndex cfg env fix st with r | s
  · rw [h] at hIdx
    exact hIdx
  · rw [h] at hIdx
    simp only [outSt] at hIdx
    exact TrOk.trans hIdx (TrOk_finishRun cfg env fix s hrest1 hrest2 hcount hlogs)

theorem runPipelineOn_effects {P : Effect → Prop} (cfg : Config) (env : Env) (fix : Bool)
    (st : St)
    (hpipePut : fix = true → P (Effect.http Method.PUT (pipelineUrl cfg)))
    (hpipeGet : fix = false → P (Effect.http Method.GET (pipelineUrl cfg)))
    (hidxDel : fix = true → P (Effect.http Method.DELETE (indexUrl cfg)))
    (hidxPut : fix = true → P (Effect.http Method.PUT (indexUrl cfg)))
    (hrest1 : fix = true → P (Effect.runCmd (composeRestartCmd cfg)))
    (hrest2 : fix = true → P (Effect.runCmd (dockerRestartCmd cfg)))
    (hcount : P (Effect.http Method.GET (countUrl cfg)))
    (hlogs : P (Effect.runCmd (dockerLogsCmd cfg))) :
    TrOk P st (runPipelineOn cfg env fix st).2 := by
  unfold runPipelineOn
  have hPipe := TrOk_stepPipeline cfg env fix st hpipePut hpipeGet
  rcases h : stepPipeline cfg env fix st with r | s
  · rw [h] at hPipe
    exact hPipe
  · rw [h] at hPipe
    simp only [outSt] at hPipe
    exact TrOk.trans hPipe
      (runIndexOn_effects cfg env fix s hidxDel hidxPut hrest1 hrest2 hcount hlogs)

theorem runDeployOn_effects {P : Effect → Prop} (cfg : Config) (env : Env) (fix : Bool)
    (st : St)
    (hstart : fix = true → P (Effect.http Method.POST (startUrl cfg)))
    (hstats : P (Effect.http Method.GET (statsUrl cfg)))
    (hpipePut : fix = true → P (Effect.http Method.PUT (pipelineUrl cfg)))
    (hpipeGet : fix = false → P (Effect.http Method.GET (pipelineUrl cfg)))
    (hidxDel : fix = true → P (Effect.http Method.DELETE (indexUrl cfg)))
    (hidxPut : fix = true → P (Effect.http Method.PUT (indexUrl cfg)))
    (hrest1 : fix = true → P (Effect.runCmd (composeRestartCmd cfg)))
    (hrest2 : fix = true → P (Effect.runCmd (dockerRestartCmd cfg)))
    (hcount : P (Effect.http Method.GET (countUrl cfg)))
    (hlogs : P (Effect.runCmd (dockerLogsCmd cfg))) :
    TrOk P st (runDeployOn cfg env fix st).2 := by
  unfold runDeployOn
  have hDep : TrOk P st (outSt (if fix then stepDeployFix cfg env st
      else Sum.inr (stepDeployRO cfg env st))) := by
    cases fix with
    | true => simpa using TrOk_stepDeployFix cfg env st (hstart rfl) hstats
    | false => simpa [outSt, stepDeployRO] using TrOk_deploy_status cfg env hstats st
  rcases h : (if fix then stepDeployFix cfg env st else Sum.inr (stepDeployRO cfg env st))
    with r | s
  · rw [h] at hDep
    exact hDep
  · rw [h] at hDep
    simp only [outSt] at hDep
    exact TrOk.trans hDep (runPipelineOn_effects cfg env fix s hpipePut hpipeGet
      hidxDel hidxPut hrest1 hrest2 hcount hlogs)

/-- Master trace lemma for the tail of `main` (download decision onward):
every effect the tail appends satisfies `P`, provided `P` accepts each call
the reached branches can make. -/
theorem mainTail_effects {P : Effect → Prop} (cfg : Config) (env : Env)
    (fix have_elser : Bool) (st : St)
    (hdl : fix = true → have_elser = false →
      P (Effect.http Method.POST (downloadUrl cfg)) ∧ P (Effect.http Method.GET (modelUrl cfg)))
    (hstart : fix = true → P (Effect.http Method.POST (startUrl cfg)))
    (hstats : P (Effect.http Method.GET (statsUrl cfg)))
    (hpipePut : fix = true → P (Effect.http Method.PUT (pipelineUrl cfg)))
    (hpipeGet : fix = false → P (Effect.http Method.GET (pipelineUrl cfg)))
    (hidxDel : fix = true → P (Effect.http Method.DELETE (indexUrl cfg)))
    (hidxPut : fix = true → P (Effect.http Method.PUT (indexUrl cfg)))
    (hrest1 : fix = true → P (Effect.runCmd (composeRestartCmd cfg)))
    (hrest2 : fix = true → P (Effect.runCmd (dockerRestartCmd cfg)))
    (hcount : P (Effect.http Method.GET (countUrl cfg)))
    (hlogs : P (Effect.runCmd (dockerLogsCmd cfg))) :
    TrOk P st (mainTail cfg env fix have_elser st).2 := by
  unfold mainTail
  have hD : TrOk P st (outSt (if fix && !have_elser then stepDownload cfg env st
      else Sum.inr st)) := by
    by_cases hg : fix && !have_elser
    · obtain ⟨hfix, hhe0⟩ : fix = true ∧ !have_elser = true := by simpa using hg
      have hhe : have_elser = false := by simpa using hhe0
      simpa [hg] using TrOk_stepDownload cfg env st (hdl hfix hhe).1 (hdl hfix hhe).2
    · simpa [hg, outSt] using TrOk.refl P st
  rcases h : (if fix && !have_elser then stepDownload cfg env st else Sum.inr st)
    with r | s
  · rw [h] at hD
    exact hD
  · rw [h] at hD
    simp only [outSt] at hD
    exact TrOk.trans hD (runDeployOn_effects cfg env fix s hstart hstats hpipePut hpipeGet
      hidxDel hidxPut hrest1 hrest2 hcount hlogs)

/-- Master trace lemma for `main`: every effect of the run's trace satisfies
`P`, provided `P` accepts each call the program can make on its reached
branches; the download-block obligations are only required when fix mode is
on and the target model id is absent from the parsed model listing (the
listing is the third HTTP request, hence `env.hresp 2`). -/
theorem main_effects {P : Effect → Prop} (cfg : Config) (env : Env) (fix : Bool)
    (hps : P (Effect.runCmd dockerPsCmd))
    (hroot : P (Effect.http Method.GET (rootUrl cfg)))
    (hlic : P (Effect.http Method.GET (licenseUrl cfg)))
    (hlist : P (Effect.http Method.GET (listModelsUrl cfg)))
    (hdl : fix = true → containsStr cfg.modelId (extractModels (env.hresp 2).2) = false →
      P (Effect.http Method.POST (downloadUrl cfg)) ∧ P (Effect.http Method.GET (modelUrl cfg)))
    (hstart : fix = true → P (Effect.http Method.POST (startUrl cfg)))
    (hstats : P (Effect.http Method.GET (statsUrl cfg)))
    (hpipePut : fix = true → P (Effect.http Method.PUT (pipelineUrl cfg)))
    (hpipeGet : fix = false → P (Effect.http Method.GET (pipelineUrl cfg)))
    (hidxDel : fix = true → P (Effect.http Method.DELETE (indexUrl cfg)))
    (hidxPut : fix = true → P (Effect.http Method.PUT (indexUrl cfg)))
    (hrest1 : fix = true → P (Effect.runCmd (composeRestartCmd cfg)))
    (hrest2 : fix = true → P (Effect.runCmd (dockerRestartCmd cfg)))
    (hcount : P (Effect.http Method.GET (countUrl cfg)))
    (hlogs : P (Effect.runCmd (dockerLogsCmd cfg))) :
    ∀ e ∈ (main cfg env fix).2.tr, P e := by
  have H : TrOk P st0 (main cfg env fix).2 := by
    unfold main
    have hDk := TrOk_stepDocker hps env st0
    rcases hd : stepDocker env st0 with r | st1
    · rw [hd] at hDk
      exact hDk
    · rw [hd] at hDk
      simp only [outSt] at hDk
      refine TrOk.trans hDk ?_
      show TrOk P st1 (runReachOn cfg env fix st1).2
      unfold runReachOn
      have hRe := TrOk_stepReach cfg env st1 hroot hlic
      rcases hr : stepReach cfg env st1 with r | st2
      · rw [hr] at hRe
        exact hRe
      · rw [hr] at hRe
        simp only [outSt] at hRe
        refine TrOk.trans hRe ?_
        show TrOk P st2 (runListOn cfg env fix st2).2
        unfold runListOn
        have hLi := TrOk_stepList cfg env st2 hlist
        rcases hl : stepList cfg env st2 with r | bs
        · rw [hl] at hLi
          exact hLi
        · rw [hl] at hLi
          simp only [outStB] at hLi
          obtain ⟨b, st3⟩ := bs
          obtain ⟨hb, _⟩ := stepList_inr hl
          have hnh2 : st2.nh = 2 := by
            have e1 := stepDocker_inr hd
            have e2 := stepReach_inr hr
            rw [e2, e1]
            simp [st0]
          rw [hnh2] at hb
          have hdl' : fix = true → b = false →
              P (Effect.http Method.POST (downloadUrl cfg)) ∧
              P (Effect.http Method.GET (modelUrl cfg)) := by
            intro hf hbf
            exact hdl hf (by rw [← hb, hbf])
          exact TrOk.trans hLi
            (mainTail_effects cfg env fix b st3 hdl' hstart hstats hpipePut hpipeGet
              hidxDel hidxPut hrest1 hrest2 hcount hlogs)
  obtain ⟨l, hl, hp⟩ := H
  intro e he
  apply hp
  rw [hl] at he
  simpa [st0] using he

/-! ### Arithmetic facts about the polling loop -/

theorem waitFuel_pos (tmo slp : Int) : 0 < waitFuel tmo slp :=
  Nat.succ_pos _

/-- With a positive sleep interval, `waitFuel` many iterations push the
modelled elapsed time past the timeout, so the loop always exits through its
own guard. -/
theorem waitFuel_mul (tmo slp : Int) (hs : 0 < slp) :
    tmo ≤ ((waitFuel tmo slp : Nat) : Int) * slp := by
  rcases le_or_lt tmo 0 with h | h
  · have hpos : (0 : Int) < ((waitFuel tmo slp : Nat) : Int) * slp := by
      have h1 : (0 : Int) < ((waitFuel tmo slp : Nat) : Int) := by
        exact_mod_cast waitFuel_pos tmo slp
      exact mul_pos h1 hs
    linarith
  · have hsn : 0 < slp.toNat := by omega
    have key : tmo.toNat < waitFuel tmo slp * slp.toNat := by
      have := (Nat.div_lt_iff_lt_mul hsn).1
        (Nat.lt_succ_self (tmo.toNat / slp.toNat))
      simpa [waitFuel] using this
    have h2 : ((tmo.toNat : Int)) < ((waitFuel tmo slp : Nat) : Int) * ((slp.toNat : Nat) : Int) := by
      exact_mod_cast key
    rw [Int.toNat_of_nonneg hs.le] at h2
    rw [Int.toNat_of_nonneg h.le] at h2
    linarith

/-- If the k-th poll would still happen before the timeout, the fuel covers
it. -/
theorem lt_waitFuel (tmo slp : Int) (k0 : Nat) (hs : 0 < slp)
    (hk : ((k0 : Int) + 1) * slp < tmo) : k0 < waitFuel tmo slp := by
  have htmo : 0 < tmo := by nlinarith [hs, hk]
  have h1 : (k0 : Int) * slp < tmo := by nlinarith
  have hsn : 0 < slp.toNat := by omega
  have h2 : ((k0 * slp.toNat : Nat) : Int) < ((tmo.toNat : Nat) : Int) := by
    push_cast
    rw [Int.toNat_of_nonneg hs.le, Int.toNat_of_nonneg htmo.le]
    exact h1
  have h3 : k0 * slp.toNat ≤ tmo.toNat := le_of_lt (by exact_mod_cast h2)
  have h4 : k0 ≤ tmo.toNat / slp.toNat := (Nat.le_div_iff_mul_le hsn).2 h3
  have : k0 < tmo.toNat / slp.toNat + 1 := Nat.lt_succ_of_le h4
  simpa [waitFuel] using this

/-- Success path of the polling loop: if the predicate is false on every
invocation index below `k0`, true at `k0`, and the `k0 + 1`-st poll still
starts before the timeout, the loop reports success after exactly `k0 + 1`
invocations. -/
theorem wait_success_aux (fn : Nat → Bool × String) (tmo slp : Int) (k0 : Nat)
    (hs : 0 < slp) (hk : ((k0 : Int) + 1) * slp < tmo)
    (hfirst : (fn k0).1 = true) (hbefore : ∀ j, j < k0 → (fn j).1 = false) :
    ∀ fuel n, n ≤ k0 → k0 < n + fuel →
      wait_until (countingFn fn) tmo slp fuel n n = (true, k0 + 1) := by
  intro fuel
  induction fuel with
  | zero =>
    intro n hn hlt
    omega
  | succ f ih =>
    intro n hn hlt
    have hcond : (n : Int) * slp < tmo := by
      have h1 : (n : Int) < (k0 : Int) + 1 := by exact_mod_cast Nat.lt_succ_of_le hn
      have h2 : (n : Int) * slp < ((k0 : Int) + 1) * slp := mul_lt_mul_of_pos_right h1 hs
      linarith
    simp only [wait_until]
    rw [if_pos hcond]
    by_cases hn0 : n = k0
    · subst hn0
      simp [countingFn, hfirst]
    · have hlt0 : n < k0 := lt_of_le_of_ne hn hn0
      simp only [countingFn, hbefore n hlt0, if_neg]
      simp only [Bool.false_eq_true, if_false]
      exact ih (n + 1) hlt0 (by omega)

/-- Timeout path of the polling loop: if the predicate is never true, the
loop reports failure after `m` invocations, where the modelled elapsed time
`m * slp` has just reached the timeout. -/
theorem wait_timeout_aux (fn : Nat → Bool × String) (tmo slp : Int)
    (hnever : ∀ j, (fn j).1 = false) :
    ∀ fuel n, tmo ≤ ((n + fuel : Nat) : Int) * slp →
      (n = 0 ∨ ((n : Int) - 1) * slp < tmo) →
      ∃ m, wait_until (countingFn fn) tmo slp fuel n n = (false, m) ∧
        tmo ≤ (m : Int) * slp ∧ (m = 0 ∨ ((m : Int) - 1) * slp < tmo) := by
  intro fuel
  induction fuel with
  | zero =>
    intro n hfe hinv
    refine ⟨n, by simp [wait_until], ?_, hinv⟩
    simpa using hfe
  | succ f ih =>
    intro n hfe hinv
    by_cases hcond : (n : Int) * slp < tmo
    · obtain ⟨m, hm, hb, hi⟩ := ih (n + 1)
        (by
          have : ((n + 1 + f : Nat) : Int) = ((n + (f + 1) : Nat) : Int) := by push_cast; ring
          rw [this]
          exact hfe)
        (Or.inr (by push_cast; simpa using hcond))
      refine ⟨m, ?_, hb, hi⟩
      simp only [wait_until]
      rw [if_pos hcond]
      simp only [countingFn, hnever n, Bool.false_eq_true, if_false]
      exact hm
    · refine ⟨n, ?_, le_of_not_lt hcond, hinv⟩
      simp only [wait_until]
      rw [if_neg hcond]

/-- The invocation count of the polling loop never decreases. -/
theorem wait_count_le (fn : Nat → Bool × String) (tmo slp : Int) :
    ∀ fuel n c, c ≤ (wait_until (countingFn fn) tmo slp fuel n c).2 := by
  intro fuel
  induction fuel with
  | zero =>
    intro n c
    simp [wait_until]
  | succ f ih =>
    intro n c
    simp only [wait_until]
    split
    · by_cases hr : (fn c).1
      · simp [countingFn, hr]
      · simp only [countingFn, hr, Bool.false_eq_true, if_false]
        exact le_trans (Nat.le_succ c) (ih (n + 1) (c + 1))
    · simp

/-! ### Exit-code inversion lemmas -/

theorem stepDocker_inl {env : Env} {st : St} {r : Int × St}
    (h : stepDocker env st = Sum.inl r) : r.1 = 2 := by
  unfold stepDocker at h
  dsimp only at h
  split at h
  · cases h
    rfl
  · cases h

theorem stepReach_inl {cfg : Config} {env : Env} {st : St} {r : Int × St}
    (h : stepReach cfg env st = Sum.inl r) : r.1 = 3 := by
  unfold stepReach at h
  dsimp only at h
  split at h
  · cases h
    rfl
  · cases h

theorem stepList_inl {cfg : Config} {env : Env} {st : St} {r : Int × St}
    (h : stepList cfg env st = Sum.inl r) : r.1 = 4 := by
  unfold stepList at h
  dsimp only at h
  split at h
  · cases h
    rfl
  · cases h

/-- In read-only mode the tail beyond the model listing cannot fail: every
conditional mutating step is skipped and the run ends with exit code 0. -/
theorem mainTail_readonly_code (cfg : Config) (env : Env) (b : Bool) (st : St) :
    (mainTail cfg env false b st).1 = 0 := by
  simp [mainTail, runDeployOn, runPipelineOn, runIndexOn, stepDeployRO, stepPipeline,
    stepIndex]

/-! ### Congruence of the deployment poll in the environment

`_deploy_status` consults the oracle only at the current HTTP index, and each
poll moves that index forward, so two environments that agree everywhere
except at one index below the poll's window drive the poll identically. -/

theorem deploy_status_congr (cfg : Config) {env1 env2 : Env} (st : St)
    (h : env1.hresp st.nh = env2.hresp st.nh) :
    deploy_status cfg env1 st = deploy_status cfg env2 st := by
  unfold deploy_status httpC
  rw [h]

theorem deploy_status_nh (cfg : Config) (env : Env) (st : St) :
    (deploy_status cfg env st).2.nh = st.nh + 1 := rfl

theorem wait_deploy_congr (cfg : Config) (env1 env2 : Env) (N : Nat) (tmo slp : Int)
    (hag : ∀ n, n ≠ N → env1.hresp n = env2.hresp n) :
    ∀ fuel n st, N < st.nh →
      wait_until (deploy_status cfg env1) tmo slp fuel n st =
        wait_until (deploy_status cfg env2) tmo slp fuel n st := by
  intro fuel
  induction fuel with
  | zero =>
    intro n st h
    simp [wait_until]
  | succ f ih =>
    intro n st h
    have hds : deploy_status cfg env1 st = deploy_status cfg env2 st :=
      deploy_status_congr cfg st (hag st.nh (by omega))
    simp only [wait_until]
    rw [← hds]
    by_cases hr : (deploy_status cfg env1 st).1.1
    · simp [hr]
    · simp only [hr, Bool.false_eq_true, if_false]
      split
      · exact ih (n + 1) (deploy_status cfg env1 st).2
          (by rw [deploy_status_nh]; omega)
      · rfl

theorem deployPoll_congr (cfg : Config) (env1 env2 : Env) (N : Nat) (st : St)
    (hag : ∀ n, n ≠ N → env1.hresp n = env2.hresp n) (h : N < st.nh) :
    deployPoll cfg env1 st = deployPoll cfg env2 st := by
  unfold deployPoll wait_until_run
  rw [wait_deploy_congr cfg env1 env2 N 600 10 hag (waitFuel 600 10) 0 st h]

/-- The deployment poll always queries the stats endpoint at least once
(the 600 s timeout is positive, so the first loop iteration runs). -/
theorem deployPoll_polls (cfg : Config) (env : Env) (st : St) :
    Effect.http Method.GET (statsUrl cfg) ∈ (outSt (deployPoll cfg env st)).tr := by
  have hmem : Effect.http Method.GET (statsUrl cfg) ∈ (deploy_status cfg env st).2.tr := by
    show Effect.http Method.GET (statsUrl cfg) ∈
      st.tr ++ [Effect.http Method.GET (statsUrl cfg)]
    simp
  have hw : Effect.http Method.GET (statsUrl cfg) ∈
      (wait_until_run (deploy_status cfg env) 600 10 st).2.tr := by
    show Effect.http Method.GET (statsUrl cfg) ∈
      (wait_until (deploy_status cfg env) 600 10 (waitFuel 600 10) 0 st).2.tr
    have hfe : waitFuel 600 10 = 60 + 1 := by decide
    rw [hfe]
    simp only [wait_until]
    rw [if_pos (by norm_num : ((0 : Nat) : Int) * 10 < 600)]
    by_cases hr : (deploy_status cfg env st).1.1
    · simpa [hr] using hmem
    · simp only [hr, Bool.false_eq_true, if_false]
      exact TrOk_mem
        (TrOk_wait (deploy_status cfg env) 600 10
          (fun x => @TrOk_deploy_status (fun _ => True) cfg env trivial x)
          60 1 (deploy_status cfg env st).2)
        hmem
  unfold deployPoll
  by_cases hr2 : (wait_until_run (deploy_status cfg env) 600 10 st).1 <;>
    simpa [hr2, outSt] using hw

/-! ### Small helpers for effect disequality, and concrete environments used
by the witnesses -/

theorem http_ne_of_url {m : Method} {u v : String} (h : u ≠ v) :
    Effect.http m u ≠ Effect.http m v := by
  intro he
  injection he with _ h2
  exact h h2

theorem http_ne_of_method {m m2 : Method} {u v : String} (h : m ≠ m2) :
    Effect.http m u ≠ Effect.http m2 v := by
  intro he
  injection he with h1 _
  exact h h1

theorem runCmd_ne_http {c : List String} {m : Method} {u : String} :
    Effect.runCmd c ≠ Effect.http m u := by
  intro h
  cases h

/-- Readiness predicate used by the polling witnesses: ready exactly on its
third invocation (index 2). -/
def fnW (n : Nat) : Bool × String := (n == 2, "w")

def envDockerFail : Env := ⟨fun _ => (200, none), fun _ => (1, "docker error")⟩

def envAuthFail : Env := ⟨fun _ => (401, none), fun _ => (0, "")⟩

def envRestartFail : Env := ⟨fun _ => (200, none), fun _ => (1, "err")⟩

def envIdxA : Env := ⟨fun n => if n = 0 then (404, none) else (200, none), fun _ => (0, "")⟩

def envIdxB : Env := ⟨fun n => if n = 0 then (500, none) else (200, none), fun _ => (0, "")⟩

def startedBody : Option JVal :=
  some (JVal.jobj [("trained_model_stats", JVal.jarr [JVal.jobj
    [("deployment_stats", JVal.jobj [("state", JVal.jstr "started")])]])])

def stoppedBody : Option JVal :=
  some (JVal.jobj [("trained_model_stats", JVal.jarr [JVal.jobj
    [("deployment_stats", JVal.jobj [("state", JVal.jstr "stopped")])]])])

def envStartedAll : Env := ⟨fun _ => (200, startedBody), fun _ => (0, "")⟩

def envStoppedAll : Env := ⟨fun _ => (200, stoppedBody), fun _ => (0, "")⟩

def envConflict : Env :=
  ⟨fun n => if n = 0 then (409, none) else (200, startedBody), fun _ => (0, "")⟩

def envStarted : Env :=
  ⟨fun n => if n = 0 then (200, none) else (200, startedBody), fun _ => (0, "")⟩

def envHave : Env :=
  ⟨fun _ => (200, some (JVal.jobj [("trained_model_configs",
      JVal.jarr [JVal.jobj [("model_id", JVal.jstr ".elser_model_2")]])])),
    fun _ => (0, "")⟩

/-! ### The claims -/

/-- C2: for a positive timeout and poll interval, (a) if the predicate first
reports ready on its k-th invocation and `k * sleep < timeout`, `wait_until`
returns success with exactly `k` invocations (the returned counter is the
total number of calls, so no call happens afterwards); (b) if the predicate
never reports ready, `wait_until` returns failure after `m` invocations
where the modelled elapsed time `m * sleep` has reached the timeout but
overshoots it by less than one interval. -/
theorem wait_until_poll_spec (fn : Nat → Bool × String) (tmo slp : Int) (k : Nat)
    (hs : 0 < slp) (htmo : 0 < tmo) :
    ((1 ≤ k ∧ (fn (k - 1)).1 = true ∧ (∀ j, j < k - 1 → (fn j).1 = false) ∧
        (k : Int) * slp < tmo) →
      wait_until_run (countingFn fn) tmo slp 0 = (true, k)) ∧
    ((∀ j, (fn j).1 = false) →
      ∃ m, wait_until_run (countingFn fn) tmo slp 0 = (false, m) ∧
        tmo ≤ (m : Int) * slp ∧ ((m : Int) - 1) * slp < tmo) := by
  constructor
  · rintro ⟨hk1, hfirst, hbefore, hk⟩
    have hcast : ((k - 1 : Nat) : Int) + 1 = (k : Int) := by omega
    have hk' : (((k - 1 : Nat) : Int) + 1) * slp < tmo := by
      rw [hcast]
      exact hk
    have hmain := wait_success_aux fn tmo slp (k - 1) hs hk' hfirst hbefore
      (waitFuel tmo slp) 0 (Nat.zero_le _)
      (by have := lt_waitFuel tmo slp (k - 1) hs hk'; omega)
    unfold wait_until_run
    rw [hmain]
    congr 1
    omega
  · intro hnever
    obtain ⟨m, hm, hb, hi⟩ := wait_timeout_aux fn tmo slp hnever (waitFuel tmo slp) 0
      (by simpa using waitFuel_mul tmo slp hs) (Or.inl rfl)
    refine ⟨m, ?_, hb, ?_⟩
    · unfold wait_until_run
      exact hm
    · rcases hi with h0 | h1
      · subst h0
        simp only [Nat.cast_zero, zero_mul] at hb
        linarith
      · exact h1

theorem wait_until_poll_spec_witness :
    wait_until_run (countingFn fnW) 100 5 0 = (true, 3) :=
  (wait_until_poll_spec fnW 100 5 3 (by norm_num) (by norm_num)).1
    ⟨by norm_num, by decide, by decide, by norm_num⟩

/-- C10: a zero or negative timeout makes `wait_until` return failure at once
with zero predicate invocations, and in general the predicate is invoked at
least once exactly when the timeout is positive. -/
theorem wait_until_nonpositive_timeout (fn : Nat → Bool × String) (tmo slp : Int) :
    (tmo ≤ 0 → wait_until_run (countingFn fn) tmo slp 0 = (false, 0)) ∧
    (1 ≤ (wait_until_run (countingFn fn) tmo slp 0).2 ↔ 0 < tmo) := by
  have hfe : waitFuel tmo slp = tmo.toNat / slp.toNat + 1 := rfl
  have ha : tmo ≤ 0 → wait_until_run (countingFn fn) tmo slp 0 = (false, 0) := by
    intro h
    unfold wait_until_run
    rw [hfe]
    simp only [wait_until]
    rw [if_neg (by simpa using not_lt.2 h)]
  refine ⟨ha, ?_, ?_⟩
  · intro h1
    by_contra hneg
    push_neg at hneg
    rw [ha hneg] at h1
    simp at h1
  · intro h
    unfold wait_until_run
    rw [hfe]
    simp only [wait_until]
    rw [if_pos (by simpa using h)]
    by_cases hr : (fn 0).1
    · simp [countingFn, hr]
    · simp only [countingFn, hr, Bool.false_eq_true, if_false]
      exact le_trans (by omega) (wait_count_le fn tmo slp _ 1 1)

theorem wait_until_nonpositive_timeout_witness :
    wait_until_run (countingFn fnW) (-7) 5 0 = (false, 0) :=
  (wait_until_nonpositive_timeout fnW (-7) 5).1 (by norm_num)

/-- An effect a read-only run is allowed to produce: a GET request, the
`docker ps` listing, or the `docker logs` tail. -/
def ReadOnlyEffect (cfg : Config) : Effect → Prop
  | Effect.http m _ => m = Method.GET
  | Effect.runCmd c => c = dockerPsCmd ∨ c = dockerLogsCmd cfg

/-- C1: a run without `--fix` issues no mutating HTTP call (every HTTP effect
in its trace is a GET) and runs no subprocess command beyond the `docker ps`
status listing and the `docker logs` tail — in particular no restart of the
dependent service. -/
theorem readonly_no_mutating_calls (cfg : Config) (env : Env) :
    ∀ e ∈ (main cfg env false).2.tr, ReadOnlyEffect cfg e :=
  main_effects cfg env false (Or.inl rfl) rfl rfl rfl
    (fun h => nomatch h) (fun h => nomatch h) rfl (fun h => nomatch h) (fun _ => rfl)
    (fun h => nomatch h) (fun h => nomatch h) (fun h => nomatch h) (fun h => nomatch h)
    rfl (Or.inr rfl)

theorem readonly_no_mutating_calls_witness :
    ReadOnlyEffect cfg0 (Effect.runCmd dockerPsCmd) :=
  readonly_no_mutating_calls cfg0 envDockerFail (Effect.runCmd dockerPsCmd) (by decide)

/-- C9: in read-only mode the only exit codes `main` can return are 0
(success), 2 (docker unavailable), 3 (reachability/auth failure) and 4
(model-listing failure); the mutating steps' codes 5–10 are unreachable. -/
theorem readonly_exit_codes (cfg : Config) (env : Env) :
    (main cfg env false).1 = 0 ∨ (main cfg env false).1 = 2 ∨
    (main cfg env false).1 = 3 ∨ (main cfg env false).1 = 4 := by
  unfold main
  rcases hd : stepDocker env st0 with r | s1
  · exact Or.inr (Or.inl (stepDocker_inl hd))
  · show (runReachOn cfg env false s1).1 = 0 ∨ (runReachOn cfg env false s1).1 = 2 ∨
      (runReachOn cfg env false s1).1 = 3 ∨ (runReachOn cfg env false s1).1 = 4
    unfold runReachOn
    rcases hr : stepReach cfg env s1 with r | s2
    · exact Or.inr (Or.inr (Or.inl (stepReach_inl hr)))
    · show (runListOn cfg env false s2).1 = 0 ∨ (runListOn cfg env false s2).1 = 2 ∨
        (runListOn cfg env false s2).1 = 3 ∨ (runListOn cfg env false s2).1 = 4
      unfold runListOn
      rcases hl : stepList cfg env s2 with r | bs
      · exact Or.inr (Or.inr (Or.inr (stepList_inl hl)))
      · exact Or.inl (mainTail_readonly_code cfg env bs.1 bs.2)

/-- C3: if docker is available but the control API's root endpoint answers
with a non-200 status, `main` exits with code 3 immediately; its whole trace
is the docker listing and the single root GET, so no later step runs. -/
theorem reach_auth_failure (cfg : Config) (env : Env) (fix : Bool)
    (hdocker : (env.rresp 0).1 = 0) (hauth : (env.hresp 0).1 ≠ 200) :
    main cfg env fix = (3, ⟨1, 1, [Effect.runCmd dockerPsCmd,
      Effect.http Method.GET (rootUrl cfg)]⟩) := by
  have h1 : stepDocker env st0 = Sum.inr ⟨0, 1, [Effect.runCmd dockerPsCmd]⟩ := by
    unfold stepDocker runC st0
    simp [hdocker]
  have h2 : stepReach cfg env ⟨0, 1, [Effect.runCmd dockerPsCmd]⟩ =
      Sum.inl (3, ⟨1, 1, [Effect.runCmd dockerPsCmd,
        Effect.http Method.GET (rootUrl cfg)]⟩) := by
    unfold stepReach httpC
    simp [hauth]
  simp [main, runReachOn, h1, h2]

theorem reach_auth_failure_witness :
    main cfg0 envAuthFail true = (3, ⟨1, 1, [Effect.runCmd dockerPsCmd,
      Effect.http Method.GET (rootUrl cfg0)]⟩) :=
  reach_auth_failure cfg0 envAuthFail true rfl (by decide)

/-- C4: in fix mode the activation step treats a 409 conflict answer to the
deployment start-trigger exactly like a 200 success: with the same later
responses the whole step computes the same result (same exit behaviour, same
trace), it proceeds to the readiness poll, and the stats probe is actually
queried; any start-trigger status outside {200, 201, 409} aborts the step
with exit code 7 right after the POST. -/
theorem activation_conflict_is_success (cfg : Config) (env1 env2 : Env) (st : St)
    (hag : ∀ n, n ≠ st.nh → env1.hresp n = env2.hresp n)
    (h409 : (env1.hresp st.nh).1 = 409) (h200 : (env2.hresp st.nh).1 = 200) :
    stepDeployFix cfg env1 st = stepDeployFix cfg env2 st ∧
    stepDeployFix cfg env1 st =
      deployPoll cfg env1 (httpC env1 st Method.POST (startUrl cfg)).2 ∧
    Effect.http Method.GET (statsUrl cfg) ∈ (outSt (stepDeployFix cfg env1 st)).tr ∧
    (∀ (env3 : Env) (st3 : St), (env3.hresp st3.nh).1 ≠ 200 →
      (env3.hresp st3.nh).1 ≠ 201 → (env3.hresp st3.nh).1 ≠ 409 →
      stepDeployFix cfg env3 st3 =
        Sum.inl (7, (httpC env3 st3 Method.POST (startUrl cfg)).2)) := by
  have heq1 : stepDeployFix cfg env1 st =
      deployPoll cfg env1 (httpC env1 st Method.POST (startUrl cfg)).2 := by
    unfold stepDeployFix httpC
    dsimp only
    rw [if_pos (Or.inr (Or.inr h409))]
  have heq2 : stepDeployFix cfg env2 st =
      deployPoll cfg env2 (httpC env2 st Method.POST (startUrl cfg)).2 := by
    unfold stepDeployFix httpC
    dsimp only
    rw [if_pos (Or.inl h200)]
  have hpoll : deployPoll cfg env1 (httpC env1 st Method.POST (startUrl cfg)).2 =
      deployPoll cfg env2 (httpC env2 st Method.POST (startUrl cfg)).2 :=
    deployPoll_congr cfg env1 env2 st.nh (httpC env1 st Method.POST (startUrl cfg)).2
      hag (Nat.lt_succ_self st.nh)
  refine ⟨?_, heq1, ?_, ?_⟩
  · rw [heq1, heq2]
    exact hpoll
  · rw [heq1]
    exact deployPoll_polls cfg env1 (httpC env1 st Method.POST (startUrl cfg)).2
  · intro env3 st3 ha hb hc
    unfold stepDeployFix
    rw [if_neg]
    intro hor
    rcases hor with h | h | h
    · exact ha h
    · exact hb h
    · exact hc h

theorem activation_conflict_is_success_witness :
    stepDeployFix cfg0 envConflict st0 = stepDeployFix cfg0 envStarted st0 :=
  (activation_conflict_is_success cfg0 envConflict envStarted st0
    (fun n hn => by
      have hn0 : n ≠ 0 := hn
      simp [envConflict, envStarted, hn0]) rfl rfl).1

/-- C5: in fix mode the index step deletes the index unconditionally and then
creates it: the trace always gains the DELETE and then the PUT on the index
url, whatever the environment answers; the DELETE's status (the oracle entry
at the current HTTP index) never occurs in the result, which only branches on
the PUT's status — 200/201 continue, anything else is exit code 10; two
environments differing only in the DELETE's answer produce identical
results. -/
theorem index_apply_delete_then_put (cfg : Config) (env : Env) (st : St) :
    (stepIndex cfg env true st =
      if (env.hresp (st.nh + 1)).1 = 200 ∨ (env.hresp (st.nh + 1)).1 = 201 then
        Sum.inr ⟨st.nh + 2, st.nr, st.tr ++ [Effect.http Method.DELETE (indexUrl cfg),
          Effect.http Method.PUT (indexUrl cfg)]⟩
      else
        Sum.inl (10, ⟨st.nh + 2, st.nr, st.tr ++ [Effect.http Method.DELETE (indexUrl cfg),
          Effect.http Method.PUT (indexUrl cfg)]⟩)) ∧
    (∀ env2 : Env, (∀ n, n ≠ st.nh → env.hresp n = env2.hresp n) →
      stepIndex cfg env true st = stepIndex cfg env2 true st) := by
  constructor
  · unfold stepIndex httpC
    split <;> split <;> simp_all
  · intro env2 hag
    unfold stepIndex httpC
    dsimp only
    rw [hag (st.nh + 1) (by omega)]

theorem index_apply_delete_then_put_witness :
    stepIndex cfg0 envIdxA true st0 = stepIndex cfg0 envIdxB true st0 :=
  (index_apply_delete_then_put cfg0 envIdxA st0).2 envIdxB
    (fun n hn => by
      have hn0 : n ≠ 0 := hn
      simp [envIdxA, envIdxB, hn0])

/-- C7: in fix mode, when the primary `docker compose restart` exits nonzero,
the `docker restart` fallback runs exactly once, and the run still continues
to the count query and log tail with no failure exit (the final-state
equality shows precisely these effects and `main` returns 0 after
`finishRun`); when the primary succeeds, no fallback runs. -/
theorem restart_fallback_nonfatal (cfg : Config) (env : Env) (st : St) :
    ((env.rresp st.nr).1 ≠ 0 →
      finishRun cfg env true st = ⟨st.nh + 1, st.nr + 3,
        st.tr ++ [Effect.runCmd (composeRestartCmd cfg), Effect.runCmd (dockerRestartCmd cfg),
          Effect.http Method.GET (countUrl cfg), Effect.runCmd (dockerLogsCmd cfg)]⟩) ∧
    ((env.rresp st.nr).1 = 0 →
      finishRun cfg env true st = ⟨st.nh + 1, st.nr + 2,
        st.tr ++ [Effect.runCmd (composeRestartCmd cfg),
          Effect.http Method.GET (countUrl cfg), Effect.runCmd (dockerLogsCmd cfg)]⟩) := by
  constructor <;> intro h <;>
    · unfold finishRun stepLogs stepCount stepRestart runC httpC
      simp [h]

theorem restart_fallback_nonfatal_witness :
    finishRun cfg0 envRestartFail true st0 = ⟨1, 3,
      [Effect.runCmd (composeRestartCmd cfg0), Effect.runCmd (dockerRestartCmd cfg0),
        Effect.http Method.GET (countUrl cfg0), Effect.runCmd (dockerLogsCmd cfg0)]⟩ :=
  (restart_fallback_nonfatal cfg0 envRestartFail st0).1 (by decide)

/-- C8 (amended): in read-only mode the activation step issues no start
command but still queries the deployment status once — its state change is
exactly one GET of the stats endpoint appended to the trace, and a read-only
run of `main` contains no POST request at all; the queried status however is
discarded, not displayed: the branch's printed output is the single fixed
"Skipping deployment changes (read-only mode)." banner, independent of the
environment's answer. -/
theorem readonly_deploy_diagnostic (cfg : Config) (env : Env) (st : St) :
    stepDeployRO cfg env st =
      ⟨st.nh + 1, st.nr, st.tr ++ [Effect.http Method.GET (statsUrl cfg)]⟩ ∧
    stepDeployRO_out cfg env st =
      ([okLine "Skipping deployment changes (read-only mode)."], stepDeployRO cfg env st) ∧
    ∀ u : String, Effect.http Method.POST u ∉ (main cfg env false).2.tr := by
  refine ⟨rfl, rfl, ?_⟩
  intro u hmem
  have hall : ∀ e ∈ (main cfg env false).2.tr, (∀ v, e ≠ Effect.http Method.POST v) :=
    main_effects cfg env false (fun _ => runCmd_ne_http)
      (fun _ => http_ne_of_method (by decide)) (fun _ => http_ne_of_method (by decide))
      (fun _ => http_ne_of_method (by decide)) (fun h => nomatch h) (fun h => nomatch h)
      (fun _ => http_ne_of_method (by decide)) (fun h => nomatch h)
      (fun _ _ => http_ne_of_method (by decide)) (fun h => nomatch h) (fun h => nomatch h)
      (fun h => nomatch h) (fun h => nomatch h) (fun _ => http_ne_of_method (by decide))
      (fun _ => runCmd_ne_http)
  exact hall _ hmem u rfl

theorem readonly_deploy_diagnostic_witness :
    stepDeployRO cfg0 envAuthFail st0 =
      ⟨1, 0, [Effect.http Method.GET (statsUrl cfg0)]⟩ ∧
    Effect.http Method.POST (startUrl cfg0) ∉ (main cfg0 envAuthFail false).2.tr :=
  ⟨(readonly_deploy_diagnostic cfg0 envAuthFail st0).1,
    (readonly_deploy_diagnostic cfg0 envAuthFail st0).2.2 (startUrl cfg0)⟩

/-- C8 counterexample to the claim as stated ("the status is displayed to the
user as a diagnostic"): two concrete runs whose queried deployment states
differ — the probe's readiness flag distinguishes a "started" from a
"stopped" stats body — print exactly the same fixed banner in the read-only
activation step, so nothing derived from the queried status is ever
displayed (source line 185 binds the probe's result to `_`, and
`_deploy_status` contains no print statement). -/
theorem readonly_status_not_displayed :
    (deploy_status cfg0 envStartedAll st0).1.1 = true ∧
    (deploy_status cfg0 envStoppedAll st0).1.1 = false ∧
    (stepDeployRO_out cfg0 envStartedAll st0).1 = (stepDeployRO_out cfg0 envStoppedAll st0).1 :=
  ⟨by decide, by decide, rfl⟩

/-- C6: when the model listing (the third HTTP call) succeeds and already
contains the target model id, the acquisition step is skipped in every mode:
neither the download-trigger POST nor the download-readiness probe's GET ever
appears in the run's trace; and in read-only mode the download-trigger POST
is never issued regardless of the listing.  The auxiliary url-disequality
hypotheses separate the probe's endpoints from the other endpoints the run
may touch (they hold by computation for the default configuration). -/
theorem acquisition_skip (cfg : Config) (env : Env) (fix : Bool)
    (hds : startUrl cfg ≠ downloadUrl cfg)
    (hm1 : rootUrl cfg ≠ modelUrl cfg) (hm2 : licenseUrl cfg ≠ modelUrl cfg)
    (hm3 : listModelsUrl cfg ≠ modelUrl cfg) (hm4 : statsUrl cfg ≠ modelUrl cfg)
    (hm5 : pipelineUrl cfg ≠ modelUrl cfg) (hm6 : countUrl cfg ≠ modelUrl cfg) :
    ((env.hresp 2).1 = 200 →
      containsStr cfg.modelId (extractModels (env.hresp 2).2) = true →
      Effect.http Method.POST (downloadUrl cfg) ∉ (main cfg env fix).2.tr ∧
      Effect.http Method.GET (modelUrl cfg) ∉ (main cfg env fix).2.tr) ∧
    (fix = false → Effect.http Method.POST (downloadUrl cfg) ∉ (main cfg env fix).2.tr) := by
  constructor
  · intro _ hcontains
    constructor
    · intro hmem
      have hall : ∀ e ∈ (main cfg env fix).2.tr,
          e ≠ Effect.http Method.POST (downloadUrl cfg) :=
        main_effects cfg env fix runCmd_ne_http
          (http_ne_of_method (by decide)) (http_ne_of_method (by decide))
          (http_ne_of_method (by decide))
          (fun _ hfalse => by rw [hcontains] at hfalse; cases hfalse)
          (fun _ => http_ne_of_url hds) (http_ne_of_method (by decide))
          (fun _ => http_ne_of_method (by decide)) (fun _ => http_ne_of_method (by decide))
          (fun _ => http_ne_of_method (by decide)) (fun _ => http_ne_of_method (by decide))
          (fun _ => runCmd_ne_http) (fun _ => runCmd_ne_http)
          (http_ne_of_method (by decide)) runCmd_ne_http
      exact hall _ hmem rfl
    · intro hmem
      have hall : ∀ e ∈ (main cfg env fix).2.tr,
          e ≠ Effect.http Method.GET (modelUrl cfg) :=
        main_effects cfg env fix runCmd_ne_http
          (http_ne_of_url hm1) (http_ne_of_url hm2) (http_ne_of_url hm3)
          (fun _ hfalse => by rw [hcontains] at hfalse; cases hfalse)
          (fun _ => http_ne_of_method (by decide)) (http_ne_of_url hm4)
          (fun _ => http_ne_of_method (by decide)) (fun _ => http_ne_of_url hm5)
          (fun _ => http_ne_of_method (by decide)) (fun _ => http_ne_of_method (by decide))
          (fun _ => runCmd_ne_http) (fun _ => runCmd_ne_http)
          (http_ne_of_url hm6) runCmd_ne_http
      exact hall _ hmem rfl
  · intro hfix hmem
    subst hfix
    have hall : ∀ e ∈ (main cfg env false).2.tr,
        e ≠ Effect.http Method.POST (downloadUrl cfg) :=
      main_effects cfg env false runCmd_ne_http
        (http_ne_of_method (by decide)) (http_ne_of_method (by decide))
        (http_ne_of_method (by decide)) (fun h => nomatch h)
        (fun h => nomatch h) (http_ne_of_method (by decide))
        (fun h => nomatch h) (fun _ => http_ne_of_method (by decide))
        (fun h => nomatch h) (fun h => nomatch h)
        (fun h => nomatch h) (fun h => nomatch h)
        (http_ne_of_method (by decide)) runCmd_ne_http
    exact hall _ hmem rfl

theorem acquisition_skip_witness :
    Effect.http Method.POST (downloadUrl cfg0) ∉ (main cfg0 envHave true).2.tr :=
  ((acquisition_skip cfg0 envHave true (by decide) (by decide) (by decide) (by decide)
      (by decide) (by decide) (by decide)).1 rfl (by decide)).1

end CheckStack
